import Mathlib

/-!
Verification of the pretty-printing library against its specification.

The renderer (`best` and its lookahead `fitting`) is embedded from
`src/pretty/doc.rs`; the builder smart constructors (`DocBuilder::append`,
`DocBuilder::nest`) are embedded from `src/lib.rs`.  Machine integers are
modelled as `Nat`/`Int` with explicit two's-complement wrapping where the
source performs `as` casts or fixed-width arithmetic.
-/

namespace doc

/-- Modelled from the spec: the module `src/pretty/mode.rs` is not under
`src/`; spec section 4.3 gives the render mode as `mode ∈ {Flat, Break}`,
and `src/pretty/doc.rs` refers to the variants as `Mode::Flat` and
`Mode::Break`. -/
inductive Mode where
  | Break : Mode
  | Flat : Mode
  deriving DecidableEq, Repr

/-- The document algebra of `src/pretty/doc.rs` (lines 16-24).  `Nest`
carries a `u64` offset, modelled as `Nat` with wrapping addition. -/
inductive Doc where
  | Nil : Doc
  | Append : Doc → Doc → Doc
  | Group : Doc → Doc
  | Nest : Nat → Doc → Doc
  | Newline : Doc
  | Text : String → Doc
  deriving DecidableEq, Repr

/-- A renderer command, `type Cmd<'a> = (u64, Mode, &'a Doc)` from
`src/pretty/doc.rs` line 26. -/
abbrev Cmd : Type := Nat × Mode × Doc

/-- Structural size of a document, used as the termination measure of the
two-stack interpreter. -/
def docSize : Doc → Nat
  | Doc.Nil => 1
  | Doc.Append l r => 1 + docSize l + docSize r
  | Doc.Group d => 1 + docSize d
  | Doc.Nest _ d => 1 + docSize d
  | Doc.Newline => 1
  | Doc.Text _ => 1

/-- Total size of the documents held by a command stack. -/
def cmdsSize : List Cmd → Nat
  | [] => 0
  | (_, _, d) :: rest => docSize d + cmdsSize rest

/-- The Rust cast `n as i64` applied to a `u64`/`usize` value: reduce
modulo `2 ^ 64` and reinterpret in two's complement. -/
def u64asI64 (n : Nat) : Int :=
  if n % 2 ^ 64 < 2 ^ 63 then ((n % 2 ^ 64 : Nat) : Int)
  else ((n % 2 ^ 64 : Nat) : Int) - 2 ^ 64

/-- Two's-complement wrap of an integer into the `i64` range. -/
def i64wrap (x : Int) : Int := (x + 2 ^ 63) % 2 ^ 64 - 2 ^ 63

/-- Wrapping `i64` subtraction, as performed by release-mode Rust for
`width as i64 - pos as i64` and `rem -= str.len() as i64`. -/
def i64sub (a b : Int) : Int := i64wrap (a - b)

/-- Wrapping `u64` addition, as performed by release-mode Rust for
`ind + off` and `pos += s.len() as u64`. -/
def u64add (a b : Nat) : Nat := (a + b) % 2 ^ 64

/-- Byte length of a text fragment, `str.len()` in the source. -/
def strLen (s : String) : Nat := s.utf8ByteSize

/-- Modelled from the spec: `util::string::nl_spaces` lives in the `util`
module, which is not under `src/`; spec section 4.4 specifies the written
string as a newline followed by `n` spaces. -/
def nl_spaces (n : Nat) : String :=
  "\n" ++ String.mk (List.replicate n (Char.ofNat 32))

/-- The loop of `fitting` (`src/pretty/doc.rs` lines 41-76).  `fcmds` is
the scratch stack (head = top); `bs` is the portion of the back stack that
the loop has not yet drained, in drain order (the Rust code reads it
through the decreasing index `bidx` without mutating `bcmds`).  Returns
the `fits` flag together with the final contents of the scratch stack. -/
def fittingLoop (fcmds bs : List Cmd) (rem : Int) : Bool × List Cmd :=
  if rem < 0 then (false, fcmds)
  else
    match fcmds with
    | [] =>
      match bs with
      | [] => (true, [])
      | (ind, mode, d) :: bs2 => fittingLoop [(ind, mode, d)] bs2 rem
    | (ind, mode, d) :: rest =>
      match d with
      | Doc.Nil => fittingLoop rest bs rem
      | Doc.Append l r => fittingLoop ((ind, mode, l) :: (ind, mode, r) :: rest) bs rem
      | Doc.Group d2 => fittingLoop ((ind, mode, d2) :: rest) bs rem
      | Doc.Nest off d2 => fittingLoop ((u64add ind off, mode, d2) :: rest) bs rem
      | Doc.Newline => fittingLoop rest bs rem
      | Doc.Text s => fittingLoop rest bs (i64sub rem (u64asI64 (strLen s)))
termination_by cmdsSize fcmds + cmdsSize bs + 2 * bs.length
decreasing_by all_goals (simp [cmdsSize, docSize] <;> omega)

/-- `fitting` (`src/pretty/doc.rs` lines 28-79).  The function clears the
scratch buffer `fcmds` before use (`fcmds.clear(); fcmds.push(next)`), so
the incoming buffer contents are irrelevant; the back stack `bcmds` is
only read.  Returns the `fits` flag and the residual scratch stack. -/
def fitting (next : Cmd) (bcmds : List Cmd) (_fcmds : List Cmd) (rem : Int) :
    Bool × List Cmd :=
  fittingLoop [next] bcmds rem

/-- The loop of `best` (`src/pretty/doc.rs` lines 92-131).  The output
sink `W: io::Writer` is abstracted as a state type `σ` with a write
function returning the new state and an optional error; `res` holds the
first error, checked at the top of every iteration (`while res.is_ok()`).
The scratch buffer passed to `fitting` is irrelevant to it (it is cleared
on entry), so the empty buffer is passed. -/
def bestLoop {σ ε : Type} (width : Nat) (wr : σ → String → σ × Option ε)
    (bcmds : List Cmd) (pos : Nat) (out : σ) (res : Option ε) : σ × Option ε :=
  match res with
  | some e => (out, some e)
  | none =>
    match bcmds with
    | [] => (out, none)
    | (ind, mode, d) :: rest =>
      match d with
      | Doc.Nil => bestLoop width wr rest pos out none
      | Doc.Append l r =>
        bestLoop width wr ((ind, mode, l) :: (ind, mode, r) :: rest) pos out none
      | Doc.Group d2 =>
        match mode with
        | Mode.Flat => bestLoop width wr ((ind, Mode.Flat, d2) :: rest) pos out none
        | Mode.Break =>
          if (fitting (ind, Mode.Flat, d2) rest [] (i64sub (u64asI64 width) (u64asI64 pos))).1 then
            bestLoop width wr ((ind, Mode.Flat, d2) :: rest) pos out none
          else
            bestLoop width wr ((ind, Mode.Break, d2) :: rest) pos out none
      | Doc.Nest off d2 =>
        bestLoop width wr ((u64add ind off, mode, d2) :: rest) pos out none
      | Doc.Newline =>
        bestLoop width wr rest ind (wr out (nl_spaces ind)).1 (wr out (nl_spaces ind)).2
      | Doc.Text s =>
        bestLoop width wr rest (u64add pos (strLen s)) (wr out s).1 (wr out s).2
termination_by cmdsSize bcmds
decreasing_by all_goals (simp [cmdsSize, docSize] <;> omega)

/-- `best` (`src/pretty/doc.rs` lines 82-134): initial state
`pos = 0`, `bcmds = [(0, Break, doc)]`, `fcmds = []`, `res = Ok(())`. -/
def best {σ ε : Type} (doc : Doc) (width : Nat)
    (wr : σ → String → σ × Option ε) (out : σ) : σ × Option ε :=
  bestLoop width wr [(0, Mode.Break, doc)] 0 out none

/-- The canonical sink: record every written string, never fail. -/
def listWriter (l : List String) (s : String) : List String × Option Unit :=
  (l ++ [s], none)

/-- The sequence of strings `best` writes to its sink, read off a run
against the canonical recording sink. -/
def bestWrites (d : Doc) (width : Nat) : List String :=
  (best d width listWriter []).1

end doc

namespace lib

/-- The document algebra of `src/lib.rs` (lines 159-172).  The pointer
parameter `T` is erased; `A` is the annotation payload.  The column and
nesting closures become functions `Nat → Doc A`. -/
inductive Doc (A : Type) where
  | Nil : Doc A
  | Append : Doc A → Doc A → Doc A
  | Group : Doc A → Doc A
  | FlatAlt : Doc A → Doc A → Doc A
  | Nest : Int → Doc A → Doc A
  | Line : Doc A
  | OwnedText : String → Doc A
  | BorrowedText : String → Doc A
  | Annotated : A → Doc A → Doc A
  | Union : Doc A → Doc A → Doc A
  | Column : (Nat → Doc A) → Doc A
  | Nesting : (Nat → Doc A) → Doc A

/-- `DocBuilder::append` (`src/lib.rs` lines 836-849): the match on
`(&*this, &*that)` returns the other operand when either side is `Nil`,
and otherwise allocates an `Append` node. -/
def DocBuilder.append {A : Type} (self that : Doc A) : Doc A :=
  match self, that with
  | Doc.Nil, _ => that
  | _, Doc.Nil => self
  | _, _ => Doc.Append self that

/-- `DocBuilder::nest` (`src/lib.rs` lines 900-914): returns the operand
unchanged when it is `Nil` or when the offset is `0`, and otherwise
allocates a `Nest` node. -/
def DocBuilder.nest {A : Type} (self : Doc A) (offset : Int) : Doc A :=
  match self with
  | Doc.Nil => self
  | _ => if offset = 0 then self else Doc.Nest offset self

end lib

namespace doc

theorem fittingLoop_neg {f bs : List Cmd} {rem : Int} (h : rem < 0) :
    fittingLoop f bs rem = (false, f) := by
  rw [fittingLoop.eq_def, if_pos h]

theorem fittingLoop_done {rem : Int} (h : ¬ rem < 0) :
    fittingLoop [] [] rem = (true, []) := by
  rw [fittingLoop.eq_def, if_neg h]

theorem fittingLoop_drain {i : Nat} {m : Mode} {d : Doc} {bs : List Cmd}
    {rem : Int} (h : ¬ rem < 0) :
    fittingLoop [] ((i, m, d) :: bs) rem = fittingLoop [(i, m, d)] bs rem := by
  rw [fittingLoop.eq_def, if_neg h]

theorem fittingLoop_nil {i : Nat} {m : Mode} {f bs : List Cmd} {rem : Int}
    (h : ¬ rem < 0) :
    fittingLoop ((i, m, Doc.Nil) :: f) bs rem = fittingLoop f bs rem := by
  rw [fittingLoop.eq_def, if_neg h]

theorem fittingLoop_append {i : Nat} {m : Mode} {l r : Doc} {f bs : List Cmd}
    {rem : Int} (h : ¬ rem < 0) :
    fittingLoop ((i, m, Doc.Append l r) :: f) bs rem =
      fittingLoop ((i, m, l) :: (i, m, r) :: f) bs rem := by
  rw [fittingLoop.eq_def, if_neg h]

theorem fittingLoop_group {i : Nat} {m : Mode} {d : Doc} {f bs : List Cmd}
    {rem : Int} (h : ¬ rem < 0) :
    fittingLoop ((i, m, Doc.Group d) :: f) bs rem =
      fittingLoop ((i, m, d) :: f) bs rem := by
  rw [fittingLoop.eq_def, if_neg h]

theorem fittingLoop_nest {i off : Nat} {m : Mode} {d : Doc} {f bs : List Cmd}
    {rem : Int} (h : ¬ rem < 0) :
    fittingLoop ((i, m, Doc.Nest off d) :: f) bs rem =
      fittingLoop ((u64add i off, m, d) :: f) bs rem := by
  rw [fittingLoop.eq_def, if_neg h]

theorem fittingLoop_newline {i : Nat} {m : Mode} {f bs : List Cmd} {rem : Int}
    (h : ¬ rem < 0) :
    fittingLoop ((i, m, Doc.Newline) :: f) bs rem = fittingLoop f bs rem := by
  rw [fittingLoop.eq_def, if_neg h]

theorem fittingLoop_text {i : Nat} {m : Mode} {s : String} {f bs : List Cmd}
    {rem : Int} (h : ¬ rem < 0) :
    fittingLoop ((i, m, Doc.Text s) :: f) bs rem =
      fittingLoop f bs (i64sub rem (u64asI64 (strLen s))) := by
  rw [fittingLoop.eq_def, if_neg h]

theorem bestLoop_err {σ ε : Type} {w : Nat} {wr : σ → String → σ × Option ε}
    {bcmds : List Cmd} {pos : Nat} {out : σ} {e : ε} :
    bestLoop w wr bcmds pos out (some e) = (out, some e) := by
  rw [bestLoop.eq_def]

theorem bestLoop_done {σ ε : Type} {w : Nat} {wr : σ → String → σ × Option ε}
    {pos : Nat} {out : σ} :
    bestLoop w wr ([] : List Cmd) pos out none = (out, none) := by
  rw [bestLoop.eq_def]

theorem bestLoop_nil {σ ε : Type} {w : Nat} {wr : σ → String → σ × Option ε}
    {i : Nat} {m : Mode} {rest : List Cmd} {pos : Nat} {out : σ} :
    bestLoop w wr ((i, m, Doc.Nil) :: rest) pos out none =
      bestLoop w wr rest pos out none := by
  rw [bestLoop.eq_def]

theorem bestLoop_append {σ ε : Type} {w : Nat} {wr : σ → String → σ × Option ε}
    {i : Nat} {m : Mode} {l r : Doc} {rest : List Cmd} {pos : Nat} {out : σ} :
    bestLoop w wr ((i, m, Doc.Append l r) :: rest) pos out none =
      bestLoop w wr ((i, m, l) :: (i, m, r) :: rest) pos out none := by
  rw [bestLoop.eq_def]

theorem bestLoop_group_flat {σ ε : Type} {w : Nat} {wr : σ → String → σ × Option ε}
    {i : Nat} {d : Doc} {rest : List Cmd} {pos : Nat} {out : σ} :
    bestLoop w wr ((i, Mode.Flat, Doc.Group d) :: rest) pos out none =
      bestLoop w wr ((i, Mode.Flat, d) :: rest) pos out none := by
  rw [bestLoop.eq_def]

theorem bestLoop_group_break {σ ε : Type} {w : Nat} {wr : σ → String → σ × Option ε}
    {i : Nat} {d : Doc} {rest : List Cmd} {pos : Nat} {out : σ} :
    bestLoop w wr ((i, Mode.Break, Doc.Group d) :: rest) pos out none =
      if (fitting (i, Mode.Flat, d) rest [] (i64sub (u64asI64 w) (u64asI64 pos))).1 then
        bestLoop w wr ((i, Mode.Flat, d) :: rest) pos out none
      else
        bestLoop w wr ((i, Mode.Break, d) :: rest) pos out none := by
  rw [bestLoop.eq_def]

theorem bestLoop_nest {σ ε : Type} {w : Nat} {wr : σ → String → σ × Option ε}
    {i off : Nat} {m : Mode} {d : Doc} {rest : List Cmd} {pos : Nat} {out : σ} :
    bestLoop w wr ((i, m, Doc.Nest off d) :: rest) pos out none =
      bestLoop w wr ((u64add i off, m, d) :: rest) pos out none := by
  rw [bestLoop.eq_def]

theorem bestLoop_newline {σ ε : Type} {w : Nat} {wr : σ → String → σ × Option ε}
    {i : Nat} {m : Mode} {rest : List Cmd} {pos : Nat} {out : σ} :
    bestLoop w wr ((i, m, Doc.Newline) :: rest) pos out none =
      bestLoop w wr rest i (wr out (nl_spaces i)).1 (wr out (nl_spaces i)).2 := by
  rw [bestLoop.eq_def]

theorem bestLoop_text {σ ε : Type} {w : Nat} {wr : σ → String → σ × Option ε}
    {i : Nat} {m : Mode} {s : String} {rest : List Cmd} {pos : Nat} {out : σ} :
    bestLoop w wr ((i, m, Doc.Text s) :: rest) pos out none =
      bestLoop w wr rest (u64add pos (strLen s)) (wr out s).1 (wr out s).2 := by
  rw [bestLoop.eq_def]

end doc


namespace doc

theorem fittingLoop_bs_nil {i0 : Nat} {m0 : Mode} :
    ∀ (n : Nat) (f bs : List Cmd) (rem : Int),
      cmdsSize f + cmdsSize bs + 2 * bs.length ≤ n →
      fittingLoop f (bs ++ [(i0, m0, Doc.Nil)]) rem = fittingLoop f bs rem := by
  intro n
  induction n using Nat.strong_induction_on with
  | _ n ih =>
    intro f bs rem h
    by_cases hr : rem < 0
    · rw [fittingLoop_neg hr, fittingLoop_neg hr]
    · cases f with
      | nil =>
        cases bs with
        | nil =>
          rw [List.nil_append, fittingLoop_drain hr, fittingLoop_nil hr]
        | cons c bs2 =>
          obtain ⟨i1, m1, d1⟩ := c
          rw [List.cons_append, fittingLoop_drain hr, fittingLoop_drain hr]
          exact ih (cmdsSize [(i1, m1, d1)] + cmdsSize bs2 + 2 * bs2.length)
            (by simp [cmdsSize] at h ⊢; omega) [(i1, m1, d1)] bs2 rem (le_refl _)
      | cons c rest =>
        obtain ⟨i1, m1, d1⟩ := c
        cases d1 with
        | Nil =>
          rw [fittingLoop_nil hr, fittingLoop_nil hr]
          exact ih (cmdsSize rest + cmdsSize bs + 2 * bs.length)
            (by simp [cmdsSize, docSize] at h; omega) rest bs rem (le_refl _)
        | Append l r =>
          rw [fittingLoop_append hr, fittingLoop_append hr]
          exact ih (cmdsSize ((i1, m1, l) :: (i1, m1, r) :: rest) + cmdsSize bs + 2 * bs.length)
            (by simp [cmdsSize, docSize] at h ⊢; omega)
            ((i1, m1, l) :: (i1, m1, r) :: rest) bs rem (le_refl _)
        | Group d2 =>
          rw [fittingLoop_group hr, fittingLoop_group hr]
          exact ih (cmdsSize ((i1, m1, d2) :: rest) + cmdsSize bs + 2 * bs.length)
            (by simp [cmdsSize, docSize] at h ⊢; omega)
            ((i1, m1, d2) :: rest) bs rem (le_refl _)
        | Nest off d2 =>
          rw [fittingLoop_nest hr, fittingLoop_nest hr]
          exact ih (cmdsSize ((u64add i1 off, m1, d2) :: rest) + cmdsSize bs + 2 * bs.length)
            (by simp [cmdsSize, docSize] at h ⊢; omega)
            ((u64add i1 off, m1, d2) :: rest) bs rem (le_refl _)
        | Newline =>
          rw [fittingLoop_newline hr, fittingLoop_newline hr]
          exact ih (cmdsSize rest + cmdsSize bs + 2 * bs.length)
            (by simp [cmdsSize, docSize] at h; omega) rest bs rem (le_refl _)
        | Text s =>
          rw [fittingLoop_text hr, fittingLoop_text hr]
          exact ih (cmdsSize rest + cmdsSize bs + 2 * bs.length)
            (by simp [cmdsSize, docSize] at h; omega) rest bs
            (i64sub rem (u64asI64 (strLen s))) (le_refl _)

end doc

namespace doc

theorem bestLoop_bs_nil {σ ε : Type} {w : Nat} {wr : σ → String → σ × Option ε}
    {i0 : Nat} {m0 : Mode} :
    ∀ (n : Nat) (cmds : List Cmd) (pos : Nat) (out : σ) (res : Option ε),
      cmdsSize cmds ≤ n →
      bestLoop w wr (cmds ++ [(i0, m0, Doc.Nil)]) pos out res =
        bestLoop w wr cmds pos out res := by
  intro n
  induction n using Nat.strong_induction_on with
  | _ n ih =>
    intro cmds pos out res h
    cases res with
    | some e => rw [bestLoop_err, bestLoop_err]
    | none =>
      cases cmds with
      | nil => rw [List.nil_append, bestLoop_nil]
      | cons c rest =>
        obtain ⟨i1, m1, d1⟩ := c
        cases d1 with
        | Nil =>
          rw [List.cons_append, bestLoop_nil, bestLoop_nil]
          exact ih (cmdsSize rest) (by simp [cmdsSize, docSize] at h; omega)
            rest pos out none (le_refl _)
        | Append l r =>
          rw [List.cons_append, bestLoop_append, bestLoop_append]
          exact ih (cmdsSize ((i1, m1, l) :: (i1, m1, r) :: rest))
            (by simp [cmdsSize, docSize] at h ⊢; omega)
            ((i1, m1, l) :: (i1, m1, r) :: rest) pos out none (le_refl _)
        | Group d2 =>
          cases m1 with
          | Flat =>
            rw [List.cons_append, bestLoop_group_flat, bestLoop_group_flat]
            exact ih (cmdsSize ((i1, Mode.Flat, d2) :: rest))
              (by simp [cmdsSize, docSize] at h ⊢; omega)
              ((i1, Mode.Flat, d2) :: rest) pos out none (le_refl _)
          | Break =>
            rw [List.cons_append, bestLoop_group_break, bestLoop_group_break]
            have hfit : (fitting (i1, Mode.Flat, d2) (rest ++ [(i0, m0, Doc.Nil)]) []
                  (i64sub (u64asI64 w) (u64asI64 pos))).1 =
                (fitting (i1, Mode.Flat, d2) rest []
                  (i64sub (u64asI64 w) (u64asI64 pos))).1 := by
              show (fittingLoop [(i1, Mode.Flat, d2)] (rest ++ [(i0, m0, Doc.Nil)]) _).1 = _
              rw [fittingLoop_bs_nil
                (cmdsSize [(i1, Mode.Flat, d2)] + cmdsSize rest + 2 * rest.length)
                [(i1, Mode.Flat, d2)] rest _ (le_refl _)]
              rfl
            rw [hfit]
            by_cases hb : (fitting (i1, Mode.Flat, d2) rest []
                (i64sub (u64asI64 w) (u64asI64 pos))).1
            · rw [if_pos hb, if_pos hb]
              exact ih (cmdsSize ((i1, Mode.Flat, d2) :: rest))
                (by simp [cmdsSize, docSize] at h ⊢; omega)
                ((i1, Mode.Flat, d2) :: rest) pos out none (le_refl _)
            · rw [if_neg hb, if_neg hb]
              exact ih (cmdsSize ((i1, Mode.Break, d2) :: rest))
                (by simp [cmdsSize, docSize] at h ⊢; omega)
                ((i1, Mode.Break, d2) :: rest) pos out none (le_refl _)
        | Nest off d2 =>
          rw [List.cons_append, bestLoop_nest, bestLoop_nest]
          exact ih (cmdsSize ((u64add i1 off, m1, d2) :: rest))
            (by simp [cmdsSize, docSize] at h ⊢; omega)
            ((u64add i1 off, m1, d2) :: rest) pos out none (le_refl _)
        | Newline =>
          rw [List.cons_append, bestLoop_newline, bestLoop_newline]
          exact ih (cmdsSize rest) (by simp [cmdsSize, docSize] at h; omega)
            rest i1 (wr out (nl_spaces i1)).1 (wr out (nl_spaces i1)).2 (le_refl _)
        | Text s =>
          rw [List.cons_append, bestLoop_text, bestLoop_text]
          exact ih (cmdsSize rest) (by simp [cmdsSize, docSize] at h; omega)
            rest (u64add pos (strLen s)) (wr out s).1 (wr out s).2 (le_refl _)

end doc

namespace doc

theorem bestLoop_listWriter_accum {w : Nat} :
    ∀ (n : Nat) (cmds : List Cmd) (pos : Nat) (l : List String) (res : Option Unit),
      cmdsSize cmds ≤ n →
      bestLoop w listWriter cmds pos l res =
        (l ++ (bestLoop w listWriter cmds pos [] res).1,
         (bestLoop w listWriter cmds pos [] res).2) := by
  intro n
  induction n using Nat.strong_induction_on with
  | _ n ih =>
    intro cmds pos l res h
    cases res with
    | some e => rw [bestLoop_err, bestLoop_err]; simp
    | none =>
      cases cmds with
      | nil => rw [bestLoop_done, bestLoop_done]; simp
      | cons c rest =>
        obtain ⟨i1, m1, d1⟩ := c
        cases d1 with
        | Nil =>
          rw [bestLoop_nil, bestLoop_nil]
          exact ih (cmdsSize rest) (by simp [cmdsSize, docSize] at h; omega)
            rest pos l none (le_refl _)
        | Append l2 r2 =>
          rw [bestLoop_append, bestLoop_append]
          exact ih (cmdsSize ((i1, m1, l2) :: (i1, m1, r2) :: rest))
            (by simp [cmdsSize, docSize] at h ⊢; omega)
            ((i1, m1, l2) :: (i1, m1, r2) :: rest) pos l none (le_refl _)
        | Group d2 =>
          cases m1 with
          | Flat =>
            rw [bestLoop_group_flat, bestLoop_group_flat]
            exact ih (cmdsSize ((i1, Mode.Flat, d2) :: rest))
              (by simp [cmdsSize, docSize] at h ⊢; omega)
              ((i1, Mode.Flat, d2) :: rest) pos l none (le_refl _)
          | Break =>
            rw [bestLoop_group_break, bestLoop_group_break]
            by_cases hb : (fitting (i1, Mode.Flat, d2) rest []
                (i64sub (u64asI64 w) (u64asI64 pos))).1
            · rw [if_pos hb, if_pos hb]
              exact ih (cmdsSize ((i1, Mode.Flat, d2) :: rest))
                (by simp [cmdsSize, docSize] at h ⊢; omega)
                ((i1, Mode.Flat, d2) :: rest) pos l none (le_refl _)
            · rw [if_neg hb, if_neg hb]
              exact ih (cmdsSize ((i1, Mode.Break, d2) :: rest))
                (by simp [cmdsSize, docSize] at h ⊢; omega)
                ((i1, Mode.Break, d2) :: rest) pos l none (le_refl _)
        | Nest off d2 =>
          rw [bestLoop_nest, bestLoop_nest]
          exact ih (cmdsSize ((u64add i1 off, m1, d2) :: rest))
            (by simp [cmdsSize, docSize] at h ⊢; omega)
            ((u64add i1 off, m1, d2) :: rest) pos l none (le_refl _)
        | Newline =>
          rw [bestLoop_newline, bestLoop_newline]
          simp only [listWriter, List.nil_append]
          have hn : cmdsSize rest < n := by simp [cmdsSize, docSize] at h; omega
          rw [ih (cmdsSize rest) hn rest i1 (l ++ [nl_spaces i1]) none (le_refl _),
              ih (cmdsSize rest) hn rest i1 [nl_spaces i1] none (le_refl _)]
          simp
        | Text s =>
          rw [bestLoop_text, bestLoop_text]
          simp only [listWriter, List.nil_append]
          have hn : cmdsSize rest < n := by simp [cmdsSize, docSize] at h; omega
          rw [ih (cmdsSize rest) hn rest (u64add pos (strLen s)) (l ++ [s]) none (le_refl _),
              ih (cmdsSize rest) hn rest (u64add pos (strLen s)) [s] none (le_refl _)]
          simp

theorem bestLoop_writer_foldl {σ ε : Type} {w : Nat} {wr : σ → String → σ × Option ε}
    (hw : ∀ st s, (wr st s).2 = none) :
    ∀ (n : Nat) (cmds : List Cmd) (pos : Nat) (out : σ),
      cmdsSize cmds ≤ n →
      bestLoop w wr cmds pos out none =
        ((bestLoop w listWriter cmds pos [] none).1.foldl (fun st s => (wr st s).1) out,
         none) := by
  intro n
  induction n using Nat.strong_induction_on with
  | _ n ih =>
    intro cmds pos out h
    cases cmds with
    | nil => rw [bestLoop_done, bestLoop_done]; simp
    | cons c rest =>
      obtain ⟨i1, m1, d1⟩ := c
      cases d1 with
      | Nil =>
        rw [bestLoop_nil, bestLoop_nil]
        exact ih (cmdsSize rest) (by simp [cmdsSize, docSize] at h; omega)
          rest pos out (le_refl _)
      | Append l2 r2 =>
        rw [bestLoop_append, bestLoop_append]
        exact ih (cmdsSize ((i1, m1, l2) :: (i1, m1, r2) :: rest))
          (by simp [cmdsSize, docSize] at h ⊢; omega)
          ((i1, m1, l2) :: (i1, m1, r2) :: rest) pos out (le_refl _)
      | Group d2 =>
        cases m1 with
        | Flat =>
          rw [bestLoop_group_flat, bestLoop_group_flat]
          exact ih (cmdsSize ((i1, Mode.Flat, d2) :: rest))
            (by simp [cmdsSize, docSize] at h ⊢; omega)
            ((i1, Mode.Flat, d2) :: rest) pos out (le_refl _)
        | Break =>
          rw [bestLoop_group_break, bestLoop_group_break]
          by_cases hb : (fitting (i1, Mode.Flat, d2) rest []
              (i64sub (u64asI64 w) (u64asI64 pos))).1
          · rw [if_pos hb, if_pos hb]
            exact ih (cmdsSize ((i1, Mode.Flat, d2) :: rest))
              (by simp [cmdsSize, docSize] at h ⊢; omega)
              ((i1, Mode.Flat, d2) :: rest) pos out (le_refl _)
          · rw [if_neg hb, if_neg hb]
            exact ih (cmdsSize ((i1, Mode.Break, d2) :: rest))
              (by simp [cmdsSize, docSize] at h ⊢; omega)
              ((i1, Mode.Break, d2) :: rest) pos out (le_refl _)
      | Nest off d2 =>
        rw [bestLoop_nest, bestLoop_nest]
        exact ih (cmdsSize ((u64add i1 off, m1, d2) :: rest))
          (by simp [cmdsSize, docSize] at h ⊢; omega)
          ((u64add i1 off, m1, d2) :: rest) pos out (le_refl _)
      | Newline =>
        rw [bestLoop_newline, bestLoop_newline]
        rw [hw out (nl_spaces i1)]
        simp only [listWriter, List.nil_append]
        have hn : cmdsSize rest < n := by simp [cmdsSize, docSize] at h; omega
        rw [ih (cmdsSize rest) hn rest i1 (wr out (nl_spaces i1)).1 (le_refl _)]
        rw [bestLoop_listWriter_accum (cmdsSize rest) rest i1 [nl_spaces i1] none (le_refl _)]
        simp
      | Text s =>
        rw [bestLoop_text, bestLoop_text]
        rw [hw out s]
        simp only [listWriter, List.nil_append]
        have hn : cmdsSize rest < n := by simp [cmdsSize, docSize] at h; omega
        rw [ih (cmdsSize rest) hn rest (u64add pos (strLen s)) (wr out s).1 (le_refl _)]
        rw [bestLoop_listWriter_accum (cmdsSize rest) rest (u64add pos (strLen s)) [s] none
          (le_refl _)]
        simp

end doc

/-- Claim C1: in the renderer's main loop, popping a `Group(d)` command in
Break mode runs the fit test on `(indent, Flat, d)` with the remaining
budget `width - pos` (computed by the `as i64` casts of the source); on
success it pushes `(indent, Flat, d)` and otherwise `(indent, Break, d)`,
so the group's contents are rendered flat exactly when the fit test says
they fit.  The second conjunct checks that for in-range values the budget
expression is exactly `width - pos`. -/
theorem best_group_break_runs_fit_test {σ ε : Type} (w : Nat)
    (wr : σ → String → σ × Option ε) (ind : Nat) (d : doc.Doc)
    (rest : List doc.Cmd) (pos : Nat) (out : σ) :
    (doc.bestLoop w wr ((ind, doc.Mode.Break, doc.Doc.Group d) :: rest) pos out none =
      if (doc.fitting (ind, doc.Mode.Flat, d) rest []
          (doc.i64sub (doc.u64asI64 w) (doc.u64asI64 pos))).1 then
        doc.bestLoop w wr ((ind, doc.Mode.Flat, d) :: rest) pos out none
      else
        doc.bestLoop w wr ((ind, doc.Mode.Break, d) :: rest) pos out none) ∧
    (w < 2 ^ 63 → pos ≤ w →
      doc.i64sub (doc.u64asI64 w) (doc.u64asI64 pos) = (w : Int) - (pos : Int)) := by
  constructor
  · exact doc.bestLoop_group_break
  · intro h1 h2
    have hw : w % 2 ^ 64 = w := Nat.mod_eq_of_lt (by omega)
    have hp : pos % 2 ^ 64 = pos := Nat.mod_eq_of_lt (by omega)
    unfold doc.i64sub doc.i64wrap doc.u64asI64
    rw [hw, hp, if_pos (by omega), if_pos (by omega)]
    omega

/-- Witness for C1: the remaining-budget expression evaluated at width 80
and column 10 is exactly 80 - 10. -/
theorem best_group_break_runs_fit_test_witness :
    doc.i64sub (doc.u64asI64 80) (doc.u64asI64 10) = ((80 : Nat) : Int) - ((10 : Nat) : Int) :=
  (@best_group_break_runs_fit_test Unit Unit 80 (fun u _ => (u, none)) 80 doc.Doc.Nil
    [] 10 ()).2 (by norm_num) (by norm_num)

/-- Claim C2 (counterexample): the claim says the fit test returns `true`
immediately whenever it encounters a `Line`, so that later content cannot
make it fail.  Here the very first command the fit test processes is a
`Newline`, yet the text drained afterwards from the back stack drives the
budget negative and the fit test returns `false`. -/
theorem fitting_after_line_fails_counterexample :
    (doc.fitting (0, doc.Mode.Flat, doc.Doc.Newline)
      [(0, doc.Mode.Break, doc.Doc.Text "aaa")] [] 2).1 = false := by
  have h1 : ¬ (2 : Int) < 0 := by decide
  show (doc.fittingLoop [(0, doc.Mode.Flat, doc.Doc.Newline)]
      [(0, doc.Mode.Break, doc.Doc.Text "aaa")] 2).1 = false
  rw [doc.fittingLoop_newline h1, doc.fittingLoop_drain h1, doc.fittingLoop_text h1]
  rw [show doc.i64sub 2 (doc.u64asI64 (doc.strLen "aaa")) = -1 from by decide]
  rw [doc.fittingLoop_neg (by decide : (-1 : Int) < 0)]

/-- Claim C2 (amended): when the fit test encounters a `Line` it sets its
success flag (already true) and continues scanning instead of returning;
a `Line` is a no-op for the fit test, and content after a hard line break
can still drive the remaining budget negative and make the test fail. -/
theorem fitting_line_is_noop {i : Nat} {m : doc.Mode} {f bs : List doc.Cmd}
    {rem : Int} (h : ¬ rem < 0) :
    doc.fittingLoop ((i, m, doc.Doc.Newline) :: f) bs rem =
      doc.fittingLoop f bs rem :=
  doc.fittingLoop_newline h

/-- Witness for the amended C2. -/
theorem fitting_line_is_noop_witness :
    doc.fittingLoop [(0, doc.Mode.Flat, doc.Doc.Newline)] [] 0 =
      doc.fittingLoop [] [] 0 :=
  fitting_line_is_noop (by decide)

/-- Claim C3 (code evaluated at the failing input): at the maximum
representable width `2 ^ 64 - 1` the renderer's budget `width as i64 -
pos as i64` wraps to `-1`, so the fit test fails for a tiny document that
plainly fits; with the saturated budget `2 ^ 63 - 1` that the claim
requires, the same fit test succeeds. -/
theorem rem_wraps_at_usize_max :
    doc.i64sub (doc.u64asI64 (2 ^ 64 - 1)) (doc.u64asI64 0) = -1 ∧
    (doc.fitting (0, doc.Mode.Flat, doc.Doc.Text "test") [] []
      (doc.i64sub (doc.u64asI64 (2 ^ 64 - 1)) (doc.u64asI64 0))).1 = false ∧
    (doc.fitting (0, doc.Mode.Flat, doc.Doc.Text "test") [] [] (2 ^ 63 - 1)).1 = true := by
  refine ⟨by decide, ?_, ?_⟩
  · rw [show doc.i64sub (doc.u64asI64 (2 ^ 64 - 1)) (doc.u64asI64 0) = -1 from by decide]
    show (doc.fittingLoop [(0, doc.Mode.Flat, doc.Doc.Text "test")] [] (-1)).1 = false
    rw [doc.fittingLoop_neg (by decide : (-1 : Int) < 0)]
  · show (doc.fittingLoop [(0, doc.Mode.Flat, doc.Doc.Text "test")] [] (2 ^ 63 - 1)).1 = true
    have h1 : ¬ (2 ^ 63 - 1 : Int) < 0 := by decide
    rw [doc.fittingLoop_text h1]
    rw [show doc.i64sub (2 ^ 63 - 1) (doc.u64asI64 (doc.strLen "test")) = 2 ^ 63 - 5 from by decide]
    rw [doc.fittingLoop_done (by decide : ¬ (2 ^ 63 - 5 : Int) < 0)]

/-- Claim C4: in the renderer's main loop a `Line` command always emits a
newline followed by the current indent's spaces and sets `pos := indent`,
in Flat mode as well as in Break mode: the mode `m` does not occur on the
right-hand side. -/
theorem best_line_always_emits_newline {σ ε : Type} (w : Nat)
    (wr : σ → String → σ × Option ε) (i : Nat) (m : doc.Mode)
    (rest : List doc.Cmd) (pos : Nat) (out : σ) :
    doc.bestLoop w wr ((i, m, doc.Doc.Newline) :: rest) pos out none =
      doc.bestLoop w wr rest i (wr out (doc.nl_spaces i)).1 (wr out (doc.nl_spaces i)).2 :=
  doc.bestLoop_newline

/-- Claim C5 (counterexample): the claim says every Group and Nest
command inside the fit test is processed in Flat mode.  Here a Break-mode
`Group` drained from the back stack is dispatched, and the scratch stack
left behind by the failing test still carries Break mode on the group's
descendant, not Flat. -/
theorem fitting_break_group_keeps_break_counterexample :
    (doc.fitting (0, doc.Mode.Flat, doc.Doc.Text "x")
      [(0, doc.Mode.Break,
        doc.Doc.Group (doc.Doc.Append (doc.Doc.Text "aaa") (doc.Doc.Text "b")))]
      [] 2).2 = [(0, doc.Mode.Break, doc.Doc.Text "b")] ∧
    doc.Mode.Break ≠ doc.Mode.Flat := by
  constructor
  · show (doc.fittingLoop [(0, doc.Mode.Flat, doc.Doc.Text "x")] _ 2).2 = _
    have h1 : ¬ (2 : Int) < 0 := by decide
    rw [doc.fittingLoop_text h1]
    rw [show doc.i64sub 2 (doc.u64asI64 (doc.strLen "x")) = 1 from by decide]
    have h2 : ¬ (1 : Int) < 0 := by decide
    rw [doc.fittingLoop_drain h2, doc.fittingLoop_group h2, doc.fittingLoop_append h2,
        doc.fittingLoop_text h2]
    rw [show doc.i64sub 1 (doc.u64asI64 (doc.strLen "aaa")) = -2 from by decide]
    rw [doc.fittingLoop_neg (by decide : (-2 : Int) < 0)]
  · decide

/-- Claim C5 (amended): inside the fit test, `Group` and `Nest` push their
child with the mode of the dispatched command unchanged (not forced to
Flat); in particular commands drained from the back stack keep their
stored modes. -/
theorem fitting_group_nest_propagate_mode {i off : Nat} {m : doc.Mode}
    {d : doc.Doc} {f bs : List doc.Cmd} {rem : Int} (h : ¬ rem < 0) :
    doc.fittingLoop ((i, m, doc.Doc.Group d) :: f) bs rem =
        doc.fittingLoop ((i, m, d) :: f) bs rem ∧
      doc.fittingLoop ((i, m, doc.Doc.Nest off d) :: f) bs rem =
        doc.fittingLoop ((doc.u64add i off, m, d) :: f) bs rem :=
  ⟨doc.fittingLoop_group h, doc.fittingLoop_nest h⟩

/-- Witness for the amended C5: a Break-mode group's child is pushed with
Break mode. -/
theorem fitting_group_nest_propagate_mode_witness :
    doc.fittingLoop [(0, doc.Mode.Break, doc.Doc.Group (doc.Doc.Text "a"))] [] 0 =
      doc.fittingLoop [(0, doc.Mode.Break, doc.Doc.Text "a")] [] 0 :=
  (@fitting_group_nest_propagate_mode 0 0 doc.Mode.Break (doc.Doc.Text "a") [] [] 0
    (by decide)).1

/-- Claim C6: `Nil` is a left and right identity of `Append` under
rendering: for every document, width, sink and sink state, rendering
`Append(Nil, d)` and `Append(d, Nil)` produces exactly the run of `d`. -/
theorem render_nil_neutral {σ ε : Type} (wr : σ → String → σ × Option ε)
    (d : doc.Doc) (w : Nat) (out : σ) :
    doc.best (doc.Doc.Append doc.Doc.Nil d) w wr out = doc.best d w wr out ∧
    doc.best (doc.Doc.Append d doc.Doc.Nil) w wr out = doc.best d w wr out := by
  constructor
  · show doc.bestLoop w wr [(0, doc.Mode.Break, doc.Doc.Append doc.Doc.Nil d)] 0 out none = _
    rw [doc.bestLoop_append, doc.bestLoop_nil]
    rfl
  · show doc.bestLoop w wr [(0, doc.Mode.Break, doc.Doc.Append d doc.Doc.Nil)] 0 out none = _
    rw [doc.bestLoop_append]
    exact doc.bestLoop_bs_nil (doc.cmdsSize [(0, doc.Mode.Break, d)])
      [(0, doc.Mode.Break, d)] 0 out none (le_refl _)

/-- Claim C7: once a write returns an error the renderer performs no
further writes, stops immediately, and returns that error, retaining the
sink state produced by the failing write (the first conjunct shows the
loop returns as soon as an error is recorded; the other two show a
failing `Text` or `Line` write ends the render with exactly that error
and the post-write sink state, whatever work remained). -/
theorem render_stops_at_write_error {σ ε : Type} (w : Nat)
    (wr : σ → String → σ × Option ε) (bcmds : List doc.Cmd) (i i2 : Nat)
    (m m2 : doc.Mode) (rest rest2 : List doc.Cmd) (pos pos2 : Nat)
    (out out2 : σ) (e e2 : ε) (s : String) :
    doc.bestLoop w wr bcmds pos out (some e) = (out, some e) ∧
    ((wr out s).2 = some e →
      doc.bestLoop w wr ((i, m, doc.Doc.Text s) :: rest) pos out none =
        ((wr out s).1, some e)) ∧
    ((wr out2 (doc.nl_spaces i2)).2 = some e2 →
      doc.bestLoop w wr ((i2, m2, doc.Doc.Newline) :: rest2) pos2 out2 none =
        ((wr out2 (doc.nl_spaces i2)).1, some e2)) := by
  refine ⟨doc.bestLoop_err, fun hs => ?_, fun hn => ?_⟩
  · rw [doc.bestLoop_text, hs, doc.bestLoop_err]
  · rw [doc.bestLoop_newline, hn, doc.bestLoop_err]

/-- Witness for C7: a sink that fails on every write ends the render at
the first text write with that error. -/
theorem render_stops_at_write_error_witness :
    doc.bestLoop 10 (fun (u : Unit) (_ : String) => (u, some 7))
      [(0, doc.Mode.Break, doc.Doc.Text "x")] 0 () none = ((), some 7) :=
  (render_stops_at_write_error 10 (fun (u : Unit) (_ : String) => (u, some 7))
    [] 0 0 doc.Mode.Break doc.Mode.Break [] [] 0 0 () () 7 7 "x").2.1 rfl

/-- Claim C8: the builder `append` returns the other operand unchanged
when either operand is `Nil`; the builder `nest` returns its operand
unchanged when the offset is 0 or the operand is `Nil`; and in every
other case the builders allocate the plain `Append`/`Nest` node, applying
no other algebraic simplification. -/
theorem builder_nil_and_zero_rewrites {A : Type} (d e : lib.Doc A) (k : Int) :
    lib.DocBuilder.append lib.Doc.Nil d = d ∧
    lib.DocBuilder.append d lib.Doc.Nil = d ∧
    lib.DocBuilder.nest (lib.Doc.Nil : lib.Doc A) k = lib.Doc.Nil ∧
    lib.DocBuilder.nest d 0 = d ∧
    (d ≠ lib.Doc.Nil → e ≠ lib.Doc.Nil →
      lib.DocBuilder.append d e = lib.Doc.Append d e) ∧
    (k ≠ 0 → d ≠ lib.Doc.Nil → lib.DocBuilder.nest d k = lib.Doc.Nest k d) := by
  refine ⟨?_, ?_, rfl, ?_, ?_, ?_⟩
  · cases d <;> rfl
  · cases d <;> rfl
  · cases d <;> rfl
  · intro hd he
    cases d <;> cases e <;> first
      | exact absurd rfl hd
      | exact absurd rfl he
      | rfl
  · intro hk hd
    cases d <;> first
      | exact absurd rfl hd
      | simp [lib.DocBuilder.nest, hk]

/-- Witness for C8: non-`Nil` operands and a nonzero offset produce the
plain `Append` and `Nest` nodes. -/
theorem builder_nil_and_zero_rewrites_witness :
    lib.DocBuilder.append (lib.Doc.OwnedText "x") (lib.Doc.Line : lib.Doc Unit) =
        lib.Doc.Append (lib.Doc.OwnedText "x") lib.Doc.Line ∧
      lib.DocBuilder.nest (lib.Doc.OwnedText "x" : lib.Doc Unit) 2 =
        lib.Doc.Nest 2 (lib.Doc.OwnedText "x") :=
  ⟨(builder_nil_and_zero_rewrites (lib.Doc.OwnedText "x") lib.Doc.Line 2).2.2.2.2.1
      (fun hcon => lib.Doc.noConfusion hcon) (fun hcon => lib.Doc.noConfusion hcon),
    (builder_nil_and_zero_rewrites (lib.Doc.OwnedText "x") lib.Doc.Line 2).2.2.2.2.2
      (by norm_num) (fun hcon => lib.Doc.noConfusion hcon)⟩

/-- Claim C9: the fit test's result and final scratch state are
independent of the incoming contents of the scratch stack `fcmds`, which
it clears at the start of every call, seeding it with the tested command;
the back stack argument and the sink are untouched by its type (the
source takes `bcmds` by shared reference and has no writer parameter). -/
theorem fitting_ignores_scratch_buffer (next : doc.Cmd) (bcmds f1 f2 : List doc.Cmd)
    (rem : Int) :
    doc.fitting next bcmds f1 rem = doc.fitting next bcmds f2 rem ∧
    doc.fitting next bcmds f1 rem = doc.fittingLoop [next] bcmds rem :=
  ⟨rfl, rfl⟩

/-- Claim C10: rendering is deterministic and its write sequence depends
only on the document and the width: for every sink that reports no
errors, running the renderer is exactly folding the sink's write function
over the canonical write trace `bestWrites d w`. -/
theorem render_trace_depends_only_on_doc_and_width {σ ε : Type}
    (wr : σ → String → σ × Option ε) (hw : ∀ st s, (wr st s).2 = none)
    (d : doc.Doc) (w : Nat) (out : σ) :
    doc.best d w wr out =
      ((doc.bestWrites d w).foldl (fun st s => (wr st s).1) out, none) := by
  show doc.bestLoop w wr [(0, doc.Mode.Break, d)] 0 out none = _
  exact doc.bestLoop_writer_foldl hw (doc.cmdsSize [(0, doc.Mode.Break, d)])
    [(0, doc.Mode.Break, d)] 0 out (le_refl _)

/-- Witness for C10: a counting sink reproduces the canonical trace. -/
theorem render_trace_depends_only_on_doc_and_width_witness :
    doc.best (doc.Doc.Text "hi") 4
        (fun (n : Nat) (s : String) => (n + doc.strLen s, (none : Option Unit))) 0 =
      ((doc.bestWrites (doc.Doc.Text "hi") 4).foldl
        (fun (n : Nat) (s : String) => n + doc.strLen s) 0, none) :=
  render_trace_depends_only_on_doc_and_width
    (fun (n : Nat) (s : String) => (n + doc.strLen s, (none : Option Unit)))
    (fun _ _ => rfl) (doc.Doc.Text "hi") 4 0
